import Mathlib

/-!
Verification development for the TrafficSim-ComplexSystems repository.

The simulation core (`src/src/traffic_simulation.py`, class `TrafficSimulation`)
is shallowly embedded below.  Python integers become `Int` (positions,
velocities) or `Nat` (identifiers, cell counts), Python dicts become
association lists or total functions into `Option`, and every call to the
global random number generator is replaced by an explicit oracle argument
(an index stream / per-vehicle choice function) supplied by the caller, so
that each definition is a pure function of the state and the drawn values.
Display-only data (vehicle colours, plotting, animation) is omitted.
-/

namespace TrafficSim

/-- A graph node identifier (osmnx node id). -/
abbrev Node := ℕ

/-- An edge of the street multigraph, keyed `(u, v, key)` exactly as in
`networkx.MultiDiGraph.edges(keys=True)`. -/
abbrev Edge := Node × Node × ℕ

/-- The street graph after discretization, as consumed by the simulation:
the edge list (`self.graph.edges(keys=True)`), the `num_cells` annotation of
every edge, and the ordered out-edge lists (`self.graph.out_edges(node, keys=True)`). -/
structure Graph where
  edges : List Edge
  numCells : Edge → ℕ
  outEdges : Node → List Edge

/-- Embedding of class `Vehicle` (`traffic_simulation.py`).  The random
display colour is omitted; all other constructor-set fields are kept. -/
structure Vehicle where
  id : ℕ
  edge : Edge
  position : ℤ
  velocity : ℤ
  v_max : ℤ
  destination : Option String
deriving DecidableEq, Repr

/-- Embedding of `self.edge_occupation`, a `defaultdict(dict)` mapping edge → cell → vehicle id.
A `defaultdict` is semantically a total function whose missing entries are the
empty dict, so it is embedded as a total function into `Option ℕ`. -/
abbrev Occ := Edge → ℤ → Option ℕ

/-- Deletion `del self.edge_occupation[e][p]` (on the states that arise, the key is present). -/
def occDel (o : Occ) (e : Edge) (p : ℤ) : Occ :=
  fun e' p' => if e' = e ∧ p' = p then none else o e' p'

/-- Assignment `self.edge_occupation[e][p] = i`. -/
def occSet (o : Occ) (e : Edge) (p : ℤ) (i : ℕ) : Occ :=
  fun e' p' => if e' = e ∧ p' = p then some i else o e' p'

/-- The mutable simulation state of a `TrafficSimulation` object (the graph,
which is never mutated after construction, is passed separately).
`vehicles` is the `{id: Vehicle}` dict in insertion (= creation) order. -/
structure SimState where
  v_max : ℤ
  vehicles : List Vehicle
  vehicleCounter : ℕ
  edgeOcc : Occ
  timeStep : ℕ
  avgVelocities : List ℚ

/-- The state of a freshly constructed simulation (after `__init__` has
discretized the graph): no vehicles, counter 0, empty occupancy. -/
def initState (v_max : ℤ) : SimState :=
  { v_max := v_max, vehicles := [], vehicleCounter := 0,
    edgeOcc := fun _ _ => none, timeStep := 0, avgVelocities := [] }

/-- Embedding of `TrafficSimulation.add_vehicle`.  The two possible random
draws (`random.choice(edges)` and `random.randint(0, num_cells - 1)`) are
supplied as the oracle arguments `rei` (edge index) and `rp` (cell draw);
they are consulted only when the corresponding argument is omitted, and a
uniform draw is modelled as the oracle value reduced mod the choice count.
`resolvedEdge` is the edge used: the caller's, or `random.choice(edges)`. -/
def resolvedEdge (g : Graph) (edgeArg : Option Edge) (rei : ℕ) : Edge :=
  match edgeArg with
  | some e => e
  | none => g.edges.getD (rei % g.edges.length) (0, 0, 0)

/-- The cell used by `add_vehicle`: the caller's, or
`random.randint(0, num_cells - 1)` drawn from the oracle value `rp`. -/
def resolvedPos (g : Graph) (edge : Edge) (posArg : Option ℤ) (rp : ℕ) : ℤ :=
  match posArg with
  | some p => p
  | none => ((rp % g.numCells edge : ℕ) : ℤ)

def add_vehicle (g : Graph) (s : SimState) (edgeArg : Option Edge) (rei : ℕ)
    (posArg : Option ℤ) (rp : ℕ) (velocity : ℤ) (destination : Option String) :
    Option ℕ × SimState :=
  if (s.edgeOcc (resolvedEdge g edgeArg rei)
        (resolvedPos g (resolvedEdge g edgeArg rei) posArg rp)).isSome then
    (none, s)
  else
    (some s.vehicleCounter,
      { s with vehicleCounter := s.vehicleCounter + 1,
               vehicles := s.vehicles ++
                 [{ id := s.vehicleCounter,
                    edge := resolvedEdge g edgeArg rei,
                    position := resolvedPos g (resolvedEdge g edgeArg rei) posArg rp,
                    velocity := velocity, v_max := s.v_max,
                    destination := destination }],
               edgeOcc := occSet s.edgeOcc (resolvedEdge g edgeArg rei)
                 (resolvedPos g (resolvedEdge g edgeArg rei) posArg rp)
                 s.vehicleCounter })

/-- Embedding of `TrafficSimulation._get_distance_to_next_vehicle`.
The source's in-edge loop `for dist in range(1, num_cells)` breaks at the
first `dist` with `position + dist >= num_cells`; since that condition is
monotone in `dist`, breaking is equivalent to skipping, which is how the
`findSome?` below renders it.  The `visited = {edge}` set only ever filters
the current edge out of the out-edge list. -/
def get_distance_to_next_vehicle (g : Graph) (v_maxS : ℤ) (occ : Occ)
    (veh : Vehicle) : ℤ :=
  let e := veh.edge
  let nc := g.numCells e
  let inEdge : Option ℤ :=
    (List.range' 1 (nc - 1)).findSome? (fun (dist : ℕ) =>
      if (nc : ℤ) ≤ veh.position + (dist : ℤ) then none
      else if (occ e (veh.position + (dist : ℤ))).isSome then some (dist : ℤ)
      else none)
  match inEdge with
  | some d => d
  | none =>
    let distance : ℤ := (nc : ℤ) - veh.position
    let maxSearch : ℤ := v_maxS * 2
    match ((g.outEdges e.2.1).filter (fun ne => ne ≠ e)).findSome? (fun ne =>
        (List.range (g.numCells ne)).findSome? (fun (p : ℕ) =>
          if (occ ne (p : ℤ)).isSome then some (distance + (p : ℤ))
          else if maxSearch ≤ distance + (p : ℤ) then some maxSearch
          else none)) with
    | some d => d
    | none => maxSearch

/-- Embedding of `TrafficSimulation._move_vehicle`.  The random turn
`random.choice(next_edges)` is supplied as the oracle index `turnIdx`
(reduced mod the list length).  Returns the updated vehicle, the updated
occupancy, and the source's boolean result. -/
def move_vehicle (g : Graph) (turnIdx : ℕ) (veh : Vehicle) (occ : Occ) :
    Vehicle × Occ × Bool :=
  let oldE := veh.edge
  let oldP := veh.position
  let newP := oldP + veh.velocity
  let nc := g.numCells oldE
  if newP < (nc : ℤ) then
    -- stays on the same edge
    let occ1 := occDel occ oldE oldP
    if (occ1 oldE newP).isSome then
      ({ veh with velocity := 0 }, occSet occ1 oldE oldP veh.id, false)
    else
      ({ veh with position := newP }, occSet occ1 oldE newP veh.id, true)
  else
    let cellsRemaining := newP - (nc : ℤ)
    let nextEdges := g.outEdges oldE.2.1
    if nextEdges.isEmpty then
      -- dead end: halt at the last cell of the current edge
      let occ1 := occDel occ oldE oldP
      ({ veh with position := (nc : ℤ) - 1, velocity := 0 },
        occSet occ1 oldE ((nc : ℤ) - 1) veh.id, true)
    else
      let ne := nextEdges.getD (turnIdx % nextEdges.length) (0, 0, 0)
      let nnc := g.numCells ne
      let cr := if (nnc : ℤ) ≤ cellsRemaining then (nnc : ℤ) - 1 else cellsRemaining
      if (occ ne cr).isSome then
        -- collision entering the next edge: halt at the end of the old edge
        let occ1 := occDel occ oldE oldP
        ({ veh with position := (nc : ℤ) - 1, velocity := 0 },
          occSet occ1 oldE ((nc : ℤ) - 1) veh.id, false)
      else
        let occ1 := occDel occ oldE oldP
        ({ veh with edge := ne, position := cr }, occSet occ1 ne cr veh.id, true)

/-- Phase 1 of `step` for one vehicle: acceleration. -/
def accelVehicle (veh : Vehicle) : Vehicle :=
  if veh.velocity < veh.v_max then { veh with velocity := veh.velocity + 1 } else veh

/-- Phase 2 of `step` for one vehicle: braking against the gap. -/
def brakeVehicle (g : Graph) (v_maxS : ℤ) (occ : Occ) (veh : Vehicle) : Vehicle :=
  let d := get_distance_to_next_vehicle g v_maxS occ veh
  if d ≤ veh.velocity then { veh with velocity := max 0 (d - 1) } else veh

/-- Phase 3 of `step` for one vehicle: stochastic slowdown; the outcome of
`random.random() < self.p_slow` is the oracle flag. -/
def randVehicle (slowFlag : Bool) (veh : Vehicle) : Vehicle :=
  if 0 < veh.velocity ∧ slowFlag = true then { veh with velocity := veh.velocity - 1 }
  else veh

/-- Index-aware map used to feed per-vehicle oracle values to a phase. -/
def mapIdxFrom (f : ℕ → Vehicle → Vehicle) : ℕ → List Vehicle → List Vehicle
  | _, [] => []
  | i, v :: vs => f i v :: mapIdxFrom f (i + 1) vs

/-- Phase 4 of `step`: move every vehicle in registry (creation) order,
threading the incrementally mutated occupancy exactly as the source loop
does.  `turn i` is the turn draw consumed by the `i`-th vehicle. -/
def movePhase (g : Graph) (turn : ℕ → ℕ) : ℕ → List Vehicle → Occ → List Vehicle × Occ
  | _, [], occ => ([], occ)
  | i, v :: vs, occ =>
    let r := move_vehicle g (turn i) v occ
    let rest := movePhase g turn (i + 1) vs r.2.1
    (r.1 :: rest.1, rest.2)

/-- Embedding of `TrafficSimulation.step`: the four Nagel-Schreckenberg
phases in source order, then the bookkeeping (time step counter and, when
vehicles exist, the mean velocity appended to `avg_velocities`).  `slow i`
and `turn i` are the oracle draws of vehicle `i` for phases 3 and 4. -/
def step (g : Graph) (s : SimState) (slow : ℕ → Bool) (turn : ℕ → ℕ) : SimState :=
  let vs1 := s.vehicles.map accelVehicle
  let vs2 := vs1.map (brakeVehicle g s.v_max s.edgeOcc)
  let vs3 := mapIdxFrom (fun i v => randVehicle (slow i) v) 0 vs2
  let mv := movePhase g turn 0 vs3 s.edgeOcc
  { s with vehicles := mv.1,
           edgeOcc := mv.2,
           timeStep := s.timeStep + 1,
           avgVelocities :=
             if mv.1.isEmpty then s.avgVelocities
             else s.avgVelocities ++
               [((mv.1.map (fun v => (v.velocity : ℚ))).sum) / (mv.1.length : ℚ)] }

/-- Iterated `step`, with per-step oracle families. -/
def stepN (g : Graph) (slow : ℕ → ℕ → Bool) (turn : ℕ → ℕ → ℕ) (s : SimState) :
    ℕ → SimState
  | 0 => s
  | n + 1 => step g (stepN g slow turn s n) (slow n) (turn n)

/-! ### `spawn_from_od_matrix` -/

/-- One `add_vehicle` call issued by the spawn loop (ghost record of the
`edge` and `position` arguments passed, and the drawn initial velocity);
used only to state properties of the call sequence. -/
structure PlaceCall where
  edge : Edge
  posArg : Option ℤ
  velocity : ℤ
deriving DecidableEq, Repr

/-- Result of the per-vehicle placement loop: the id returned (if placed),
the state after the loop, the next unread position of the random stream,
and — as ghost instrumentation — the `add_vehicle` calls it issued, grouped
into one inner list per `while` iteration. -/
structure PlaceResult where
  placed : Option ℕ
  state : SimState
  k : ℕ
  trace : List (List PlaceCall)

/-- The inner `while attempts < max_attempts and added_id is None` loop of
`spawn_from_od_matrix`, for a single vehicle of the (origin, destination)
pair.  Each iteration draws a fresh `random.choice(origin_edges)` and a
fresh `random.randint(0, self.v_max)`, tries cell 0, and on failure retries
once with `position=None` on the edge just drawn.  The shared RNG is the
stream `rng` consumed at positions `k, k+1, …`; the recursion is on the
remaining attempt budget `fuel = max_attempts - attempts`. -/
def place_vehicle (g : Graph) (destZone : String) (originEdges : List Edge)
    (rng : ℕ → ℕ) : ℕ → ℕ → SimState → PlaceResult
  | 0, k, s => ⟨none, s, k, []⟩
  | fuel + 1, k, s =>
    let e := originEdges.getD (rng k % originEdges.length) (0, 0, 0)
    let vel : ℤ := ((rng (k + 1) % (s.v_max.toNat + 1) : ℕ) : ℤ)
    let r1 := add_vehicle g s (some e) 0 (some 0) 0 vel (some destZone)
    match r1.1 with
    | some i => ⟨some i, r1.2, k + 2, [[⟨e, some 0, vel⟩]]⟩
    | none =>
      let r2 := add_vehicle g r1.2 (some e) 0 none (rng (k + 2)) vel (some destZone)
      match r2.1 with
      | some i => ⟨some i, r2.2, k + 3, [[⟨e, some 0, vel⟩, ⟨e, none, vel⟩]]⟩
      | none =>
        let rest := place_vehicle g destZone originEdges rng fuel (k + 3) r2.2
        ⟨rest.placed, rest.state, rest.k,
          [⟨e, some 0, vel⟩, ⟨e, none, vel⟩] :: rest.trace⟩

/-- Loop `for _ in range(vehicle_count)`: place `n` vehicles of one
(origin, destination) pair, counting successes into `total_added`. -/
def spawnVehicles (g : Graph) (destZone : String) (originEdges : List Edge)
    (rng : ℕ → ℕ) (maxAttempts : ℕ) : ℕ → ℕ → SimState → ℕ × SimState × ℕ
  | 0, k, s => (0, s, k)
  | n + 1, k, s =>
    let r := place_vehicle g destZone originEdges rng maxAttempts k s
    let rest := spawnVehicles g destZone originEdges rng maxAttempts n r.k r.state
    ((if r.placed.isSome then 1 else 0) + rest.1, rest.2)

/-- Python's `round` (banker's rounding, half to even) on a rational. -/
def pyRound (q : ℚ) : ℤ :=
  let f := Int.floor q
  let r := q - (f : ℚ)
  if r < 1 / 2 then f
  else if 1 / 2 < r then f + 1
  else if f % 2 = 0 then f else f + 1

/-- The `for destination_zone, demand in destinations.items()` loop of
`spawn_from_od_matrix` for one origin zone. -/
def spawnDests (g : Graph) (originZone : String) (originEdges : List Edge)
    (rng : ℕ → ℕ) (maxAttempts : ℕ) (scale : ℚ) :
    List (String × ℚ) → ℕ → SimState → ℕ × SimState × ℕ
  | [], k, s => (0, s, k)
  | (destZone, demand) :: rest, k, s =>
    if demand ≤ 0 then spawnDests g originZone originEdges rng maxAttempts scale rest k s
    else if destZone = originZone then
      spawnDests g originZone originEdges rng maxAttempts scale rest k s
    else
      let vehicleCount := pyRound (demand * scale)
      if vehicleCount ≤ 0 then
        spawnDests g originZone originEdges rng maxAttempts scale rest k s
      else
        let r := spawnVehicles g destZone originEdges rng maxAttempts
          vehicleCount.toNat k s
        let r' := spawnDests g originZone originEdges rng maxAttempts scale rest
          r.2.2 r.2.1
        (r.1 + r'.1, r'.2)

/-- Embedding of `zones_with_edges`: each zone mapped to the concatenated out-edges of its
representative nodes, kept only when non-empty. -/
def zonesWithEdges (g : Graph) (zones : List (String × List Node)) :
    List (String × List Edge) :=
  zones.filterMap (fun z =>
    let es := (z.2.map g.outEdges).flatten
    if es.isEmpty then none else some (z.1, es))

/-- The `for origin_zone, destinations in od_matrix.items()` loop. -/
def spawnOrigins (g : Graph) (zwe : List (String × List Edge)) (rng : ℕ → ℕ)
    (maxAttempts : ℕ) (scale : ℚ) :
    List (String × List (String × ℚ)) → ℕ → SimState → ℕ × SimState
  | [], _, s => (0, s)
  | (originZone, destinations) :: rest, k, s =>
    match (zwe.find? (fun z => z.1 = originZone)).map (fun z => z.2) with
    | none => spawnOrigins g zwe rng maxAttempts scale rest k s
    | some originEdges =>
      let r := spawnDests g originZone originEdges rng maxAttempts scale
        destinations k s
      let r' := spawnOrigins g zwe rng maxAttempts scale rest r.2.2 r.2.1
      (r.1 + r'.1, r'.2)

/-- Embedding of `TrafficSimulation.spawn_from_od_matrix`.  `random_seed`
only reseeds the global RNG and is subsumed by the explicit stream `rng`;
`scale <= 0` raises `ValueError`, embedded as `none`.  Returns
`total_added` and the final state. -/
def spawn_from_od_matrix (g : Graph) (s : SimState)
    (zones : List (String × List Node)) (odMatrix : List (String × List (String × ℚ)))
    (scale : ℚ) (maxAttempts : ℕ) (rng : ℕ → ℕ) : Option (ℕ × SimState) :=
  if scale ≤ 0 then none
  else some (spawnOrigins g (zonesWithEdges g zones) rng maxAttempts scale odMatrix 0 s)

/-! ### `_discretize_edges` (NetworkDiscretizer) -/

/-- The per-edge attribute dict, restricted to the fields the discretizer
reads and writes.  Physical float lengths are idealized as rationals. -/
structure EdgeData where
  length : Option ℚ
  num_cells : Option ℕ
deriving DecidableEq, Repr

/-- The raw graph as seen by `_discretize_edges`: its edge list and the
attribute dict of every edge. -/
structure RawGraph where
  edges : List Edge
  data : Edge → EdgeData

/-- The length the discretizer uses for an edge: the stored one, or the
great-circle length `gc` of the edge's endpoint coordinates (a
transcendental float computation, abstracted here as a given per-edge
value). -/
def fallbackLength (d : EdgeData) (gc : ℚ) : ℚ :=
  match d.length with
  | some l => l
  | none => gc

/-- The body of the `_discretize_edges` loop for one edge: store the
resolved length and `num_cells = max(1, ceil(length / cell_length))`. -/
def discretizeEdge (cellLength : ℚ) (gc : ℚ) (d : EdgeData) : EdgeData :=
  { length := some (fallbackLength d gc),
    num_cells := some (max 1 (Int.ceil (fallbackLength d gc / cellLength))).toNat }

/-- Embedding of `TrafficSimulation._discretize_edges`: annotate every edge
of the graph in place. -/
def discretize_edges (cellLength : ℚ) (gc : Edge → ℚ) (g : RawGraph) : RawGraph :=
  { g with data := fun e =>
      if e ∈ g.edges then discretizeEdge cellLength (gc e) (g.data e) else g.data e }

end TrafficSim

/-! ### `generador_od.py`: the gravity model -/

namespace GeneradorOD

/-- Zone names, as in the zone definition JSON. -/
abbrev Zone := String

/-- A zone-to-zone travel cost.  `compute_zone_costs` produces `math.inf`
(`none` here) for unreachable destinations and a finite float (a rational
here) otherwise. -/
abbrev Cost := Option ℚ

/-- The weight `attractions[destination] * impedance(cost, ...)` of an
allowed destination, as retrieved later via `weights.get(destination, 0.0)`:
it is `0` for a skipped self destination and for non-positive weights (only
`weight > 0` entries are put into the `weights` dict).  The impedance
function `imp` stands for `impedance(·, friction, beta, gamma)`: its
exponential / power kernels are transcendental on floats, so it is passed
as an explicit function argument. -/
def weightOf (attractions : Zone → ℚ) (costs : Zone → Zone → Cost)
    (imp : Cost → ℚ) (allowSelfTrips : Bool) (origin dest : Zone) : ℚ :=
  if allowSelfTrips = false ∧ dest = origin then 0
  else
    let w := attractions dest * imp (costs origin dest)
    if 0 < w then w else 0

/-- Embedding of `total_weight` accumulated for one origin over the zone list. -/
def totalWeight (zones : List Zone) (attractions : Zone → ℚ)
    (costs : Zone → Zone → Cost) (imp : Cost → ℚ) (allowSelfTrips : Bool)
    (origin : Zone) : ℚ :=
  (zones.map (weightOf attractions costs imp allowSelfTrips origin)).sum

/-- Embedding of `gravity_matrix` (`generador_od.py`): the `matrix[origin][destination]`
entry of the singly production-constrained gravity model. -/
def gravity_matrix (zones : List Zone) (productions attractions : Zone → ℚ)
    (costs : Zone → Zone → Cost) (imp : Cost → ℚ) (allowSelfTrips : Bool)
    (origin dest : Zone) : ℚ :=
  if totalWeight zones attractions costs imp allowSelfTrips origin = 0 then 0
  else if allowSelfTrips = false ∧ dest = origin then 0
  else productions origin *
    (weightOf attractions costs imp allowSelfTrips origin dest
      / totalWeight zones attractions costs imp allowSelfTrips origin)

end GeneradorOD

namespace TrafficSim

/-! ### C9: discretization is idempotent -/

/-- Claim C9. Edge discretization is idempotent: re-running
`_discretize_edges` on an already-discretized network changes nothing
(every edge's `length` and `num_cells` are left as they are), and after
each run every edge of the graph carries
`num_cells = max(1, ceil(length / cell_length)) ≥ 1`, including when the
stored length is zero. -/
theorem discretize_edges_idempotent (cl : ℚ) (gc : Edge → ℚ) (g : RawGraph) :
    discretize_edges cl gc (discretize_edges cl gc g) = discretize_edges cl gc g ∧
    (∀ e, e ∈ g.edges →
      ((discretize_edges cl gc g).data e).length
        = some (fallbackLength (g.data e) (gc e)) ∧
      ((discretize_edges cl gc g).data e).num_cells
        = some (max 1 (Int.ceil (fallbackLength (g.data e) (gc e) / cl))).toNat ∧
      1 ≤ (max 1 (Int.ceil (fallbackLength (g.data e) (gc e) / cl))).toNat) := by
  constructor
  · unfold discretize_edges
    simp only [RawGraph.mk.injEq, true_and]
    funext e
    by_cases he : e ∈ g.edges
    · simp only [he, if_pos]
      simp [discretizeEdge, fallbackLength]
    · simp [he]
  · intro e he
    refine ⟨?_, ?_, ?_⟩
    · simp only [discretize_edges, he, if_pos]
      rfl
    · simp only [discretize_edges, he, if_pos]
      rfl
    · have h1 : (1 : ℤ) ≤ max 1 (Int.ceil (fallbackLength (g.data e) (gc e) / cl)) :=
        le_max_left _ _
      omega

/-- Witness for C9 at a concrete one-edge graph whose single edge has
stored length 0 (the zero-length edge case): both runs leave
`num_cells = 1`. -/
theorem discretize_edges_idempotent_witness :
    (discretize_edges 1 (fun _ => 0)
        (discretize_edges 1 (fun _ => 0) ⟨[(0, 1, 0)], fun _ => ⟨some 0, none⟩⟩)
      = discretize_edges 1 (fun _ => 0) ⟨[(0, 1, 0)], fun _ => ⟨some 0, none⟩⟩) ∧
    (((discretize_edges 1 (fun _ => 0)
          (⟨[(0, 1, 0)], fun _ => ⟨some 0, none⟩⟩ : RawGraph)).data (0, 1, 0)).length
        = some (fallbackLength ((⟨some 0, none⟩ : EdgeData)) 0) ∧
      ((discretize_edges 1 (fun _ => 0)
          (⟨[(0, 1, 0)], fun _ => ⟨some 0, none⟩⟩ : RawGraph)).data (0, 1, 0)).num_cells
        = some (max 1 (Int.ceil (fallbackLength ((⟨some 0, none⟩ : EdgeData)) 0 / 1))).toNat ∧
      1 ≤ (max 1 (Int.ceil (fallbackLength ((⟨some 0, none⟩ : EdgeData)) 0 / 1))).toNat) :=
  ⟨(discretize_edges_idempotent 1 (fun _ => 0)
      ⟨[(0, 1, 0)], fun _ => ⟨some 0, none⟩⟩).1,
   (discretize_edges_idempotent 1 (fun _ => 0)
      ⟨[(0, 1, 0)], fun _ => ⟨some 0, none⟩⟩).2 (0, 1, 0) (by simp)⟩

end TrafficSim

namespace GeneradorOD

/-! ### C7 and C8: the gravity matrix -/

/-- The retrieved weight of any destination is non-negative (it is either a
skipped self trip, a filtered non-positive weight, or a positive weight). -/
theorem weightOf_nonneg (attractions : Zone → ℚ) (costs : Zone → Zone → Cost)
    (imp : Cost → ℚ) (allowSelfTrips : Bool) (origin dest : Zone) :
    0 ≤ weightOf attractions costs imp allowSelfTrips origin dest := by
  unfold weightOf
  split
  · exact le_refl 0
  · dsimp only
    split
    · exact le_of_lt (by assumption)
    · exact le_refl 0

/-- Embedding fact: `total_weight` is a sum of non-negative weights. -/
theorem totalWeight_nonneg (zones : List Zone) (attractions : Zone → ℚ)
    (costs : Zone → Zone → Cost) (imp : Cost → ℚ) (allowSelfTrips : Bool)
    (origin : Zone) :
    0 ≤ totalWeight zones attractions costs imp allowSelfTrips origin := by
  unfold totalWeight
  refine List.sum_nonneg ?_
  intro x hx
  obtain ⟨d, _, rfl⟩ := List.mem_map.mp hx
  exact weightOf_nonneg attractions costs imp allowSelfTrips origin d

/-- Claim C7. For every origin zone whose `total_weight` (the sum over allowed
destinations of the positive attraction-weighted impedances) is strictly
positive, the `gravity_matrix` row of that origin sums exactly to that
origin's production factor: the model is singly production-constrained. -/
theorem gravity_matrix_row_sum (zones : List Zone)
    (productions attractions : Zone → ℚ) (costs : Zone → Zone → Cost)
    (imp : Cost → ℚ) (allowSelfTrips : Bool) (origin : Zone)
    (hW : 0 < totalWeight zones attractions costs imp allowSelfTrips origin) :
    (zones.map
        (gravity_matrix zones productions attractions costs imp allowSelfTrips origin)).sum
      = productions origin := by
  have hW0 : totalWeight zones attractions costs imp allowSelfTrips origin ≠ 0 :=
    ne_of_gt hW
  have hmap : zones.map
      (gravity_matrix zones productions attractions costs imp allowSelfTrips origin)
      = zones.map (fun d =>
          (productions origin / totalWeight zones attractions costs imp allowSelfTrips origin)
            * weightOf attractions costs imp allowSelfTrips origin d) := by
    refine List.map_congr_left ?_
    intro d _
    unfold gravity_matrix
    simp only [hW0, if_neg, if_false]
    split
    · rename_i hself
      rw [weightOf, if_pos hself]
      ring
    · ring
  rw [hmap, List.sum_map_mul_left]
  have hsum : (zones.map (weightOf attractions costs imp allowSelfTrips origin)).sum
      = totalWeight zones attractions costs imp allowSelfTrips origin := rfl
  rw [hsum, div_mul_cancel₀ _ hW0]

/-- Witness for C7: two zones with unit attractions and impedance, origin
production 7; the row of origin "A" sums to 7. -/
theorem gravity_matrix_row_sum_witness :
    (["A", "B"].map
        (gravity_matrix ["A", "B"] (fun _ => 7) (fun _ => 1)
          (fun _ _ => some 0) (fun _ => 1) false "A")).sum = 7 :=
  gravity_matrix_row_sum ["A", "B"] (fun _ => 7) (fun _ => 1)
    (fun _ _ => some 0) (fun _ => 1) false "A"
    (by
      have hBA : ("B" : String) ≠ "A" := by decide
      norm_num [totalWeight, weightOf]
      rw [if_neg hBA]
      norm_num)

/-- Claim C8. For non-negative production and attraction factors, every
`gravity_matrix` entry is non-negative; every self entry is exactly 0 when
self trips are not allowed; and every entry of an origin whose
`total_weight` is 0 is 0. -/
theorem gravity_matrix_basic (zones : List Zone)
    (productions attractions : Zone → ℚ) (costs : Zone → Zone → Cost)
    (imp : Cost → ℚ) (allowSelfTrips : Bool)
    (hp : ∀ z, 0 ≤ productions z) (ha : ∀ z, 0 ≤ attractions z) :
    (∀ o d, 0 ≤ gravity_matrix zones productions attractions costs imp allowSelfTrips o d) ∧
    (allowSelfTrips = false →
      ∀ o, gravity_matrix zones productions attractions costs imp allowSelfTrips o o = 0) ∧
    (∀ o, totalWeight zones attractions costs imp allowSelfTrips o = 0 →
      ∀ d, gravity_matrix zones productions attractions costs imp allowSelfTrips o d = 0) := by
  refine ⟨?_, ?_, ?_⟩
  · intro o d
    unfold gravity_matrix
    split
    · exact le_refl 0
    · split
      · exact le_refl 0
      · rename_i hW _
        have h1 : 0 ≤ totalWeight zones attractions costs imp allowSelfTrips o :=
          totalWeight_nonneg zones attractions costs imp allowSelfTrips o
        exact mul_nonneg (hp o)
          (div_nonneg (weightOf_nonneg attractions costs imp allowSelfTrips o d) h1)
  · intro hAllow o
    unfold gravity_matrix
    split
    · rfl
    · rw [if_pos ⟨hAllow, rfl⟩]
  · intro o hW d
    unfold gravity_matrix
    rw [if_pos hW]

/-- Witness for C8 at concrete unit factors. -/
theorem gravity_matrix_basic_witness :
    0 ≤ gravity_matrix ["A", "B"] (fun _ => 1) (fun _ => 1)
        (fun _ _ => some 0) (fun _ => 1) false "A" "B" :=
  (gravity_matrix_basic ["A", "B"] (fun _ => 1) (fun _ => 1)
      (fun _ _ => some 0) (fun _ => 1) false
      (fun _ => by norm_num) (fun _ => by norm_num)).1 "A" "B"

end GeneradorOD

namespace TrafficSim

/-! ### C10: `add_vehicle` atomicity on failure and consecutive ids -/

/-- The arguments of one `add_vehicle` call (including its oracle draws). -/
structure AddReq where
  edgeArg : Option Edge
  rei : ℕ
  posArg : Option ℤ
  rp : ℕ
  velocity : ℤ
  destination : Option String

/-- Run a sequence of `add_vehicle` calls, collecting the ids of the
successful ones in order. -/
def runAdds (g : Graph) : SimState → List AddReq → List ℕ × SimState
  | s, [] => ([], s)
  | s, r :: rs =>
    let a := add_vehicle g s r.edgeArg r.rei r.posArg r.rp r.velocity r.destination
    let rest := runAdds g a.2 rs
    match a.1 with
    | some i => (i :: rest.1, rest.2)
    | none => rest

/-- On success, `add_vehicle` returns the current counter as the id and
increments the counter. -/
theorem add_vehicle_success_id (g : Graph) (s : SimState) (ea : Option Edge)
    (rei : ℕ) (pa : Option ℤ) (rp : ℕ) (vel : ℤ) (dst : Option String) (i : ℕ)
    (h : (add_vehicle g s ea rei pa rp vel dst).1 = some i) :
    i = s.vehicleCounter ∧
    (add_vehicle g s ea rei pa rp vel dst).2.vehicleCounter = s.vehicleCounter + 1 := by
  unfold add_vehicle at h ⊢
  by_cases hocc : (s.edgeOcc (resolvedEdge g ea rei)
      (resolvedPos g (resolvedEdge g ea rei) pa rp)).isSome
  · rw [if_pos hocc] at h
    simp at h
  · rw [if_neg hocc] at h ⊢
    simp only [Option.some.injEq] at h
    exact ⟨h.symm, rfl⟩

/-- On failure, `add_vehicle` returns the state unchanged. -/
theorem add_vehicle_failure_id (g : Graph) (s : SimState) (ea : Option Edge)
    (rei : ℕ) (pa : Option ℤ) (rp : ℕ) (vel : ℤ) (dst : Option String)
    (h : (add_vehicle g s ea rei pa rp vel dst).1 = none) :
    (add_vehicle g s ea rei pa rp vel dst).2 = s := by
  unfold add_vehicle at h ⊢
  by_cases hocc : (s.edgeOcc (resolvedEdge g ea rei)
      (resolvedPos g (resolvedEdge g ea rei) pa rp)).isSome
  · rw [if_pos hocc]
  · rw [if_neg hocc] at h
    simp at h

/-- Claim C10. `add_vehicle` is atomic on failure: whenever it returns `None`
(the resolved slot is occupied), the whole simulation state — vehicle
registry, occupancy index and fresh-id counter — is exactly as before the
call; consequently, for any call sequence the ids of the successfully
created vehicles are the consecutive integers starting at the current
counter, hence `0, 1, 2, …` from a fresh simulation. -/
theorem add_vehicle_atomic_consecutive_ids (g : Graph) :
    (∀ s ea rei pa rp vel dst,
      (add_vehicle g s ea rei pa rp vel dst).1 = none →
      (add_vehicle g s ea rei pa rp vel dst).2 = s) ∧
    (∀ s reqs, (runAdds g s reqs).1
      = List.range' s.vehicleCounter (runAdds g s reqs).1.length) ∧
    (∀ v_max reqs, (runAdds g (initState v_max) reqs).1
      = List.range (runAdds g (initState v_max) reqs).1.length) := by
  have key : ∀ reqs s, (runAdds g s reqs).1
      = List.range' s.vehicleCounter (runAdds g s reqs).1.length := by
    intro reqs
    induction reqs with
    | nil => intro s; rfl
    | cons r rs ih =>
      intro s
      show (runAdds g s (r :: rs)).1 = _
      unfold runAdds
      dsimp only
      cases h : (add_vehicle g s r.edgeArg r.rei r.posArg r.rp r.velocity r.destination).1 with
      | none =>
        have hs := add_vehicle_failure_id g s r.edgeArg r.rei r.posArg r.rp
          r.velocity r.destination h
        rw [hs]
        exact ih s
      | some i =>
        obtain ⟨hi, hc⟩ := add_vehicle_success_id g s r.edgeArg r.rei r.posArg r.rp
          r.velocity r.destination i h
        have hrest := ih (add_vehicle g s r.edgeArg r.rei r.posArg r.rp r.velocity r.destination).2
        rw [hc] at hrest
        dsimp only
        rw [List.length_cons, List.range'_succ]
        rw [hi]
        congr 1
  refine ⟨fun s ea rei pa rp vel dst h =>
      add_vehicle_failure_id g s ea rei pa rp vel dst h,
    fun s reqs => key reqs s, fun v_max reqs => ?_⟩
  have := key reqs (initState v_max)
  rw [this]
  show List.range' 0 _ = _
  rw [List.range_eq_range']
  rw [List.length_range']

/-- Witness for C10: a one-edge graph; the second add to the same cell
fails and leaves the state after the first add unchanged, and the id
sequence of a fresh run with one success is `[0]`. -/
theorem add_vehicle_atomic_consecutive_ids_witness :
    (let g : Graph := ⟨[(0, 1, 0)], fun _ => 3, fun _ => []⟩
     let s1 := (add_vehicle g (initState 5) (some (0, 1, 0)) 0 (some 0) 0 0 none).2
     (add_vehicle g s1 (some (0, 1, 0)) 0 (some 0) 0 0 none).2 = s1) ∧
    (let g : Graph := ⟨[(0, 1, 0)], fun _ => 3, fun _ => []⟩
     (runAdds g (initState 5) [⟨some (0, 1, 0), 0, some 0, 0, 0, none⟩]).1
       = List.range
           (runAdds g (initState 5) [⟨some (0, 1, 0), 0, some 0, 0, 0, none⟩]).1.length) := by
  constructor
  · exact (add_vehicle_atomic_consecutive_ids
      ⟨[(0, 1, 0)], fun _ => 3, fun _ => []⟩).1 _ _ _ _ _ _ _ (by decide)
  · exact (add_vehicle_atomic_consecutive_ids
      ⟨[(0, 1, 0)], fun _ => 3, fun _ => []⟩).2.2 5 _

/-! ### C2: the `2 * v_max` bound of `_get_distance_to_next_vehicle` -/

/-- If every element of a list maps to `none`, `findSome?` is `none`. -/
theorem findSome?_eq_none_of_all {α β : Type} (f : α → Option β) :
    ∀ l : List α, (∀ a ∈ l, f a = none) → l.findSome? f = none
  | [], _ => rfl
  | a :: l, h => by
    rw [List.findSome?_cons, h a (List.mem_cons_self a l)]
    exact findSome?_eq_none_of_all f l (fun x hx => h x (List.mem_cons_of_mem a hx))

/-- If every element of a list maps to `none` or to one fixed value,
`findSome?` is `none` or that value. -/
theorem findSome?_none_or_const {α β : Type} (f : α → Option β) (c : β) :
    ∀ l : List α, (∀ a ∈ l, f a = none ∨ f a = some c) →
      l.findSome? f = none ∨ l.findSome? f = some c
  | [], _ => Or.inl rfl
  | a :: l, h => by
    rw [List.findSome?_cons]
    rcases h a (List.mem_cons_self a l) with h1 | h1 <;> rw [h1]
    · exact findSome?_none_or_const f c l (fun x hx => h x (List.mem_cons_of_mem a hx))
    · exact Or.inr rfl

/-- Claim C2, counterexample. The claim says the function never returns more
than `2 * v_max`.  But on a 20-cell edge with `v_max = 5` (bound 10), a
vehicle at cell 0 whose next vehicle sits at cell 15 gets the exact
distance 15 back from the current-edge scan, exceeding the bound — and
although no occupied cell lies within `2 * v_max` cells ahead, the bound
10 is not returned.  Both vehicles are placed by `add_vehicle`, so the
state is reachable. -/
theorem gap_exceeds_bound_counterexample :
    (let g : Graph := ⟨[(0, 1, 0)], fun _ => 20, fun _ => []⟩
     let s1 := (add_vehicle g (initState 5) (some (0, 1, 0)) 0 (some 0) 0 0 none).2
     let s2 := (add_vehicle g s1 (some (0, 1, 0)) 0 (some 15) 0 0 none).2
     get_distance_to_next_vehicle g s2.v_max s2.edgeOcc
        (s2.vehicles.getD 0 ⟨0, (0, 0, 0), 0, 0, 0, none⟩) = 15 ∧
     2 * s2.v_max < 15) := by
  decide

/-- Claim C2, amended. When no occupied cell lies ahead of the vehicle
anywhere on its current edge, and no cell of any edge out of the current
edge's destination node is occupied, `_get_distance_to_next_vehicle`
returns exactly the bound `2 * v_max`.  (The original claim's "never
greater than `2 * v_max`" part is false: a hit found by the current-edge
scan, or found on a one-hop edge before the bound check fires, is
returned at its exact distance even beyond the bound.) -/
theorem gap_clear_road_sentinel (g : Graph) (v_maxS : ℤ) (occ : Occ)
    (veh : Vehicle)
    (hIn : ∀ p : ℤ, veh.position < p → p < (g.numCells veh.edge : ℤ) →
      occ veh.edge p = none)
    (hOut : ∀ ne ∈ g.outEdges veh.edge.2.1, ∀ p : ℕ, p < g.numCells ne →
      occ ne (p : ℤ) = none) :
    get_distance_to_next_vehicle g v_maxS occ veh = v_maxS * 2 := by
  unfold get_distance_to_next_vehicle
  dsimp only
  have hInScan : (List.range' 1 (g.numCells veh.edge - 1)).findSome? (fun (dist : ℕ) =>
      if (g.numCells veh.edge : ℤ) ≤ veh.position + (dist : ℤ) then none
      else if (occ veh.edge (veh.position + (dist : ℤ))).isSome then
        some (dist : ℤ) else none) = none := by
    refine findSome?_eq_none_of_all _ _ ?_
    intro dist hdist
    rw [List.mem_range'_1] at hdist
    by_cases hge : (g.numCells veh.edge : ℤ) ≤ veh.position + (dist : ℤ)
    · rw [if_pos hge]
    · rw [if_neg hge]
      have h0 : occ veh.edge (veh.position + (dist : ℤ)) = none := by
        refine hIn _ ?_ (by omega)
        have : 1 ≤ dist := hdist.1
        omega
      rw [h0]
      rfl
  rw [hInScan]
  have hOutScan := findSome?_none_or_const
    (fun ne => (List.range (g.numCells ne)).findSome? (fun (p : ℕ) =>
      if (occ ne (p : ℤ)).isSome then
        some ((g.numCells veh.edge : ℤ) - veh.position + (p : ℤ))
      else if v_maxS * 2 ≤ (g.numCells veh.edge : ℤ) - veh.position + (p : ℤ) then
        some (v_maxS * 2) else none))
    (v_maxS * 2)
    ((g.outEdges veh.edge.2.1).filter (fun ne => ne ≠ veh.edge))
    (by
      intro ne hne
      have hne' : ne ∈ g.outEdges veh.edge.2.1 := (List.mem_filter.mp hne).1
      refine findSome?_none_or_const _ _ _ ?_
      intro p hp
      rw [List.mem_range] at hp
      rw [hOut ne hne' p hp]
      by_cases hms : v_maxS * 2 ≤ (g.numCells veh.edge : ℤ) - veh.position + (p : ℤ)
      · rw [if_neg (by simp), if_pos hms]
        exact Or.inr rfl
      · rw [if_neg (by simp), if_neg hms]
        exact Or.inl rfl)
  dsimp only
  rcases hOutScan with h | h <;> rw [h]

/-- Witness for the amended C2: a lone vehicle on a 3-cell dead-end edge
with `v_max = 5` gets the clear-road sentinel 10. -/
theorem gap_clear_road_sentinel_witness :
    get_distance_to_next_vehicle ⟨[(0, 1, 0)], fun _ => 3, fun _ => []⟩ 5
      (fun _ _ => none) ⟨0, (0, 1, 0), 0, 0, 5, none⟩ = 5 * 2 :=
  gap_clear_road_sentinel ⟨[(0, 1, 0)], fun _ => 3, fun _ => []⟩ 5
    (fun _ _ => none) ⟨0, (0, 1, 0), 0, 0, 5, none⟩
    (fun _ _ _ => rfl) (fun _ _ _ _ => rfl)

/-! ### C5: the braking phase computes `max 0 (min v (gap - 1))` -/

/-- Lemma: `getD` through `map`, below the length. -/
theorem getD_map_lt {α β : Type} (f : α → β) (l : List α) (j : ℕ) (d : β)
    (d' : α) (h : j < l.length) : (l.map f).getD j d = f (l.getD j d') := by
  induction l generalizing j with
  | nil => simp at h
  | cons a l ih =>
    cases j with
    | zero => rfl
    | succ j => exact ih j (by simpa using h)

/-- Lemma: `getD` through `mapIdxFrom`, below the length. -/
theorem getD_mapIdxFrom_lt (f : ℕ → Vehicle → Vehicle) (l : List Vehicle)
    (i j : ℕ) (d d' : Vehicle) (h : j < l.length) :
    (mapIdxFrom f i l).getD j d = f (i + j) (l.getD j d') := by
  induction l generalizing i j with
  | nil => simp at h
  | cons a l ih =>
    cases j with
    | zero => rfl
    | succ j =>
      show (mapIdxFrom f (i + 1) l).getD j d = _
      rw [ih (i + 1) j (by simpa using h)]
      congr 1
      omega

/-- Lemma: `move_vehicle` never produces a positive velocity from a stopped
vehicle: every branch either keeps the velocity or forces it to 0. -/
theorem move_vehicle_keeps_zero (g : Graph) (t : ℕ) (veh : Vehicle) (occ : Occ)
    (h : veh.velocity = 0) : (move_vehicle g t veh occ).1.velocity = 0 := by
  unfold move_vehicle
  dsimp only
  split
  · split
    · rfl
    · exact h
  · split
    · rfl
    · split <;> split <;> first | rfl | exact h

/-- The moved list of `movePhase` keeps stopped vehicles stopped, slotwise. -/
theorem movePhase_keeps_zero (g : Graph) (turn : ℕ → ℕ) (l : List Vehicle) :
    ∀ (i j : ℕ) (occ : Occ) (d : Vehicle), j < l.length →
      (l.getD j d).velocity = 0 →
      ((movePhase g turn i l occ).1.getD j d).velocity = 0 := by
  induction l with
  | nil => intro i j occ d h; simp at h
  | cons v vs ih =>
    intro i j occ d h hz
    cases j with
    | zero => exact move_vehicle_keeps_zero g (turn i) v occ hz
    | succ j =>
      exact ih (i + 1) j (move_vehicle g (turn i) v occ).2.1 d
        (by simpa using h) hz

theorem movePhase_length (g : Graph) (turn : ℕ → ℕ) (l : List Vehicle) :
    ∀ (i : ℕ) (occ : Occ), (movePhase g turn i l occ).1.length = l.length := by
  induction l with
  | nil => intro i occ; rfl
  | cons v vs ih =>
    intro i occ
    show _ + 1 = _ + 1
    rw [ih]

theorem mapIdxFrom_length (f : ℕ → Vehicle → Vehicle) :
    ∀ (i : ℕ) (l : List Vehicle), (mapIdxFrom f i l).length = l.length := by
  intro i l
  induction l generalizing i with
  | nil => rfl
  | cons a l ih => show _ + 1 = _ + 1; rw [ih]

/-- Acceleration keeps velocities non-negative. -/
theorem accelVehicle_nonneg (v : Vehicle) (h : 0 ≤ v.velocity) :
    0 ≤ (accelVehicle v).velocity := by
  unfold accelVehicle
  split
  · dsimp only; omega
  · exact h

/-- An in-range `getD` is a member of the list. -/
theorem getD_mem_of_lt {α : Type} (l : List α) (j : ℕ) (d : α)
    (h : j < l.length) : l.getD j d ∈ l := by
  induction l generalizing j with
  | nil => simp at h
  | cons a l ih =>
    cases j with
    | zero => exact List.mem_cons_self a l
    | succ j => exact List.mem_cons_of_mem a (ih j (by simpa using h))

/-- Claim C5. After the braking phase of `step`, the velocity of every
vehicle equals `max 0 (min v (gap - 1))` where `v` is its
post-acceleration velocity and `gap` its distance to the next vehicle;
and a vehicle whose gap is 1 at braking time ends the whole step (after
randomization and movement) with velocity exactly 0, regardless of the
slowdown draws. -/
theorem braking_phase_clips (g : Graph) (s : SimState) (slow : ℕ → Bool)
    (turn : ℕ → ℕ) (j : ℕ) (d : Vehicle)
    (hj : j < s.vehicles.length)
    (hv : ∀ v ∈ s.vehicles, 0 ≤ v.velocity) :
    (((s.vehicles.map accelVehicle).map (brakeVehicle g s.v_max s.edgeOcc)).getD j d).velocity
      = max 0 (min ((s.vehicles.map accelVehicle).getD j d).velocity
          (get_distance_to_next_vehicle g s.v_max s.edgeOcc
            ((s.vehicles.map accelVehicle).getD j d) - 1)) ∧
    (get_distance_to_next_vehicle g s.v_max s.edgeOcc
        ((s.vehicles.map accelVehicle).getD j d) = 1 →
      ((step g s slow turn).vehicles.getD j d).velocity = 0) := by
  have hj1 : j < (s.vehicles.map accelVehicle).length := by simpa using hj
  have hacc : (s.vehicles.map accelVehicle).getD j d
      = accelVehicle (s.vehicles.getD j d) := getD_map_lt _ _ _ _ _ hj
  have hmem : s.vehicles.getD j d ∈ s.vehicles := getD_mem_of_lt _ _ _ hj
  have hnn : 0 ≤ ((s.vehicles.map accelVehicle).getD j d).velocity := by
    rw [hacc]
    exact accelVehicle_nonneg _ (hv _ hmem)
  have hbrake : ((s.vehicles.map accelVehicle).map
        (brakeVehicle g s.v_max s.edgeOcc)).getD j d
      = brakeVehicle g s.v_max s.edgeOcc ((s.vehicles.map accelVehicle).getD j d) :=
    getD_map_lt _ _ _ _ _ hj1
  constructor
  · rw [hbrake]
    unfold brakeVehicle
    dsimp only
    split
    · dsimp only
      rename_i hle
      simp only [max_def, min_def]
      split_ifs <;> omega
    · rename_i hlt
      simp only [max_def, min_def]
      split_ifs <;> omega
  · intro hgap
    have hz : (((s.vehicles.map accelVehicle).map
          (brakeVehicle g s.v_max s.edgeOcc)).getD j d).velocity = 0 := by
      rw [hbrake]
      unfold brakeVehicle
      dsimp only
      rw [hgap]
      split
      · dsimp only
        simp only [max_def]
        split <;> omega
      · rename_i hlt
        omega
    unfold step
    dsimp only
    have hj2 : j < ((s.vehicles.map accelVehicle).map
        (brakeVehicle g s.v_max s.edgeOcc)).length := by simpa using hj
    have hrand : (mapIdxFrom (fun i v => randVehicle (slow i) v) 0
          ((s.vehicles.map accelVehicle).map (brakeVehicle g s.v_max s.edgeOcc))).getD j d
        = randVehicle (slow (0 + j))
            (((s.vehicles.map accelVehicle).map
              (brakeVehicle g s.v_max s.edgeOcc)).getD j d) :=
      getD_mapIdxFrom_lt _ _ 0 j d d hj2
    have hrandz : ((mapIdxFrom (fun i v => randVehicle (slow i) v) 0
          ((s.vehicles.map accelVehicle).map
            (brakeVehicle g s.v_max s.edgeOcc))).getD j d).velocity = 0 := by
      rw [hrand]
      unfold randVehicle
      rw [hz]
      split
      · rename_i hcond
        omega
      · exact hz
    refine movePhase_keeps_zero g turn _ 0 j s.edgeOcc d ?_ hrandz
    rw [mapIdxFrom_length]
    exact hj2

/-- The graph of Scenario B: one 10-cell edge. -/
def scenB_graph : Graph := ⟨[(0, 1, 0)], fun _ => 10, fun _ => []⟩

/-- Scenario B's state: trailing vehicle at cell 1 (created first, index
0), leader at cell 2, `v_max = 5`, both placed by `add_vehicle`. -/
def scenB_state : SimState :=
  (add_vehicle scenB_graph
    (add_vehicle scenB_graph (initState 5) (some (0, 1, 0)) 0 (some 1) 0 3 none).2
    (some (0, 1, 0)) 0 (some 2) 0 3 none).2

/-- Witness for C5 at Scenario B: the trailing vehicle's gap is 1, so
after the full step its velocity is 0 (whatever the slowdown draws were —
here all `true`). -/
theorem braking_phase_clips_witness :
    ((step scenB_graph scenB_state (fun _ => true) (fun _ => 0)).vehicles.getD 0
        ⟨0, (0, 0, 0), 0, 0, 0, none⟩).velocity = 0 :=
  (braking_phase_clips scenB_graph scenB_state (fun _ => true) (fun _ => 0) 0
      ⟨0, (0, 0, 0), 0, 0, 0, none⟩ (by decide) (by decide)).2 (by decide)

/-! ### C6: dead-end policy -/

/-- An occupancy with exactly one occupied slot. -/
def singleOcc (e : Edge) (p : ℤ) (i : ℕ) : Occ :=
  fun e' p' => if e' = e ∧ p' = p then some i else none

/-- Deleting and re-setting the single occupied slot is the identity. -/
theorem occSet_occDel_single (e : Edge) (p : ℤ) (i j : ℕ) :
    occSet (occDel (singleOcc e p i) e p) e p j = singleOcc e p j := by
  funext e' p'
  unfold occSet occDel singleOcc
  by_cases h : e' = e ∧ p' = p <;> simp [h]

/-- The simulation contains exactly one vehicle, sitting at the last cell
of edge `e` with velocity 0, and the occupancy records exactly that slot. -/
def StuckAtDeadEnd (g : Graph) (e : Edge) (i : ℕ) (s : SimState) : Prop :=
  ∃ vmax dst,
    s.vehicles = [⟨i, e, (g.numCells e : ℤ) - 1, 0, vmax, dst⟩] ∧
    s.edgeOcc = singleOcc e ((g.numCells e : ℤ) - 1) i

/-- The three NS phases before movement change only the velocity, and from
velocity 0 they produce velocity 0 or 1. -/
theorem prelude_phases_from_zero (g : Graph) (vms : ℤ) (occ : Occ)
    (sf : Bool) (v : Vehicle) (hz : v.velocity = 0) :
    ∃ w : ℤ, (w = 0 ∨ w = 1) ∧
      randVehicle sf (brakeVehicle g vms occ (accelVehicle v)) =
        { v with velocity := w } := by
  unfold accelVehicle brakeVehicle randVehicle
  dsimp only
  by_cases h1 : v.velocity < v.v_max
  · rw [if_pos h1]
    dsimp only
    split
    · rename_i hd
      dsimp only
      split
      · rename_i hrand
        refine ⟨_ - 1, Or.inl ?_, rfl⟩
        omega
      · rename_i hrand
        exact ⟨_, by omega, rfl⟩
    · rename_i hd
      split
      · rename_i hrand
        exact ⟨v.velocity + 1 - 1, Or.inl (by omega), rfl⟩
      · exact ⟨v.velocity + 1, Or.inr (by omega), rfl⟩
  · rw [if_neg h1]
    split
    · rename_i hd
      dsimp only
      split
      · rename_i hrand
        exact ⟨_ - 1, Or.inl (by omega), rfl⟩
      · exact ⟨_, Or.inl (by omega), rfl⟩
    · split
      · rename_i hrand
        omega
      · exact ⟨v.velocity, Or.inl hz, rfl⟩

/-- Claim C6. On an edge whose destination node has no outgoing edges:
(1) a vehicle whose movement target `position + velocity` reaches or
passes `num_cells` ends `_move_vehicle` at cell `num_cells - 1` of that
same edge with velocity 0, and the move is reported a success; and
(2)/(3) a simulation whose only vehicle sits at that cell with velocity 0
is back in exactly that configuration after each and every subsequent
`step`, whatever the random draws. -/
theorem dead_end_halts (g : Graph) (e : Edge) (hout : g.outEdges e.2.1 = []) :
    (∀ (t : ℕ) (veh : Vehicle) (occ : Occ),
      veh.edge = e →
      (g.numCells e : ℤ) ≤ veh.position + veh.velocity →
      (move_vehicle g t veh occ).1.position = (g.numCells e : ℤ) - 1 ∧
      (move_vehicle g t veh occ).1.velocity = 0 ∧
      (move_vehicle g t veh occ).1.edge = e ∧
      (move_vehicle g t veh occ).2.2 = true) ∧
    (∀ (s : SimState) (i : ℕ) (slow : ℕ → Bool) (turn : ℕ → ℕ),
      StuckAtDeadEnd g e i s → StuckAtDeadEnd g e i (step g s slow turn)) ∧
    (∀ (s : SimState) (i : ℕ) (slow : ℕ → ℕ → Bool) (turn : ℕ → ℕ → ℕ) (n : ℕ),
      StuckAtDeadEnd g e i s → StuckAtDeadEnd g e i (stepN g slow turn s n)) := by
  have move1 : ∀ (t : ℕ) (veh : Vehicle) (occ : Occ),
      veh.edge = e →
      (g.numCells e : ℤ) ≤ veh.position + veh.velocity →
      (move_vehicle g t veh occ).1.position = (g.numCells e : ℤ) - 1 ∧
      (move_vehicle g t veh occ).1.velocity = 0 ∧
      (move_vehicle g t veh occ).1.edge = e ∧
      (move_vehicle g t veh occ).2.2 = true := by
    intro t veh occ hedge hover
    unfold move_vehicle
    dsimp only
    rw [hedge, hout]
    rw [if_neg (by omega)]
    rw [if_pos (by rfl)]
    exact ⟨rfl, rfl, rfl, rfl⟩
  have step1 : ∀ (s : SimState) (i : ℕ) (slow : ℕ → Bool) (turn : ℕ → ℕ),
      StuckAtDeadEnd g e i s → StuckAtDeadEnd g e i (step g s slow turn) := by
    intro s i slow turn hstuck
    obtain ⟨vmax, dst, hveh, hocc⟩ := hstuck
    obtain ⟨w, hw, hphases⟩ := prelude_phases_from_zero g s.v_max s.edgeOcc (slow 0)
      ⟨i, e, (g.numCells e : ℤ) - 1, 0, vmax, dst⟩ rfl
    unfold step
    rw [hveh]
    dsimp only [List.map, mapIdxFrom]
    rw [hphases]
    show StuckAtDeadEnd g e i
      { s with
        vehicles := (movePhase g turn 0 [_] s.edgeOcc).1,
        edgeOcc := (movePhase g turn 0 [_] s.edgeOcc).2,
        timeStep := _, avgVelocities := _ }
    simp only [movePhase]
    rcases hw with hw | hw <;> rw [hw]
    · -- velocity 0: the vehicle stays put on the same edge
      unfold move_vehicle
      dsimp only
      rw [if_pos (by omega)]
      rw [hocc]
      have hdel : (occDel (singleOcc e ((g.numCells e : ℤ) - 1) i) e
            ((g.numCells e : ℤ) - 1)) e ((g.numCells e : ℤ) - 1 + 0) = none := by
        unfold occDel
        rw [if_pos ⟨rfl, add_zero _⟩]
      rw [hdel]
      rw [if_neg (by simp)]
      refine ⟨vmax, dst, ?_, ?_⟩
      · simp only [add_zero]
      · show occSet (occDel (singleOcc e ((g.numCells e : ℤ) - 1) i) e
            ((g.numCells e : ℤ) - 1)) e ((g.numCells e : ℤ) - 1 + 0) i
          = singleOcc e ((g.numCells e : ℤ) - 1) i
        rw [add_zero]
        exact occSet_occDel_single e ((g.numCells e : ℤ) - 1) i i
    · -- velocity 1: overflow into the dead end, halt back at the last cell
      unfold move_vehicle
      dsimp only
      rw [if_neg (by omega)]
      rw [hout]
      rw [if_pos (by rfl)]
      refine ⟨vmax, dst, rfl, ?_⟩
      rw [hocc]
      exact occSet_occDel_single e ((g.numCells e : ℤ) - 1) i i
  refine ⟨move1, step1, ?_⟩
  intro s i slow turn n hstuck
  induction n with
  | zero => exact hstuck
  | succ n ih => exact step1 _ i (slow n) (turn n) ih

/-- Witness for C6: a 3-cell dead-end edge; a vehicle at cell 1 with
velocity 4 overflows, and the stuck configuration persists for 4 steps. -/
theorem dead_end_halts_witness :
    ((move_vehicle ⟨[(0, 1, 0)], fun _ => 3, fun _ => []⟩ 0
        ⟨0, (0, 1, 0), 1, 4, 5, none⟩ (singleOcc (0, 1, 0) 1 0)).1.position = 2 ∧
      (move_vehicle ⟨[(0, 1, 0)], fun _ => 3, fun _ => []⟩ 0
        ⟨0, (0, 1, 0), 1, 4, 5, none⟩ (singleOcc (0, 1, 0) 1 0)).1.velocity = 0 ∧
      (move_vehicle ⟨[(0, 1, 0)], fun _ => 3, fun _ => []⟩ 0
        ⟨0, (0, 1, 0), 1, 4, 5, none⟩ (singleOcc (0, 1, 0) 1 0)).1.edge = (0, 1, 0) ∧
      (move_vehicle ⟨[(0, 1, 0)], fun _ => 3, fun _ => []⟩ 0
        ⟨0, (0, 1, 0), 1, 4, 5, none⟩ (singleOcc (0, 1, 0) 1 0)).2.2 = true) ∧
    StuckAtDeadEnd ⟨[(0, 1, 0)], fun _ => 3, fun _ => []⟩ (0, 1, 0) 0
      (stepN ⟨[(0, 1, 0)], fun _ => 3, fun _ => []⟩ (fun _ _ => false) (fun _ _ => 0)
        { v_max := 5, vehicles := [⟨0, (0, 1, 0), 2, 0, 5, none⟩],
          vehicleCounter := 1, edgeOcc := singleOcc (0, 1, 0) 2 0,
          timeStep := 0, avgVelocities := [] } 4) :=
  ⟨(dead_end_halts ⟨[(0, 1, 0)], fun _ => 3, fun _ => []⟩ (0, 1, 0) rfl).1 0
      ⟨0, (0, 1, 0), 1, 4, 5, none⟩ (singleOcc (0, 1, 0) 1 0) rfl (by decide),
   (dead_end_halts ⟨[(0, 1, 0)], fun _ => 3, fun _ => []⟩ (0, 1, 0) rfl).2.2
      { v_max := 5, vehicles := [⟨0, (0, 1, 0), 2, 0, 5, none⟩],
        vehicleCounter := 1, edgeOcc := singleOcc (0, 1, 0) 2 0,
        timeStep := 0, avgVelocities := [] } 0 (fun _ _ => false) (fun _ _ => 0) 4
      ⟨5, none, by decide, rfl⟩⟩

/-! ### C4: position and velocity ranges -/

/-- A vehicle whose fields are in range: position an integer in
`[0, num_cells)` of its current edge, velocity an integer in `[0, v_max]`,
and its stored `v_max` equal to the simulation's. -/
def GoodVeh (g : Graph) (vm : ℤ) (v : Vehicle) : Prop :=
  0 ≤ v.position ∧ v.position < (g.numCells v.edge : ℤ) ∧
  0 ≤ v.velocity ∧ v.velocity ≤ v.v_max ∧ v.v_max = vm

/-- Claim C4, counterexample.  `add_vehicle` does not validate caller-supplied
arguments: on a 3-cell edge with `v_max = 5`, supplying `position = 8` and
`velocity = 8` succeeds (the slot `(edge, 8)` is unoccupied) and creates a
vehicle whose position is outside `[0, num_cells)` and whose velocity
exceeds `v_max`, so the claimed invariant fails right after a successful
`add_vehicle` call with caller-supplied arguments. -/
theorem vehicle_ranges_counterexample :
    (let g : Graph := ⟨[(0, 1, 0)], fun _ => 3, fun _ => []⟩
     let r := add_vehicle g (initState 5) (some (0, 1, 0)) 0 (some 8) 0 8 none
     r.1 = some 0 ∧
     (r.2.vehicles.getD 0 ⟨0, (0, 0, 0), 0, 0, 0, none⟩).position = 8 ∧
     ¬ ((r.2.vehicles.getD 0 ⟨0, (0, 0, 0), 0, 0, 0, none⟩).position
          < (g.numCells (0, 1, 0) : ℤ)) ∧
     (r.2.vehicles.getD 0 ⟨0, (0, 0, 0), 0, 0, 0, none⟩).velocity = 8 ∧
     ¬ ((r.2.vehicles.getD 0 ⟨0, (0, 0, 0), 0, 0, 0, none⟩).velocity ≤ r.2.v_max)) := by
  decide

/-- Acceleration preserves the ranges. -/
theorem accelVehicle_good (g : Graph) (vm : ℤ) (v : Vehicle)
    (h : GoodVeh g vm v) : GoodVeh g vm (accelVehicle v) := by
  obtain ⟨h1, h2, h3, h4, h5⟩ := h
  unfold accelVehicle
  split
  · exact ⟨h1, h2, by dsimp only; omega, by dsimp only; omega, h5⟩
  · exact ⟨h1, h2, h3, h4, h5⟩

/-- Braking preserves the ranges. -/
theorem brakeVehicle_good (g : Graph) (vm vmS : ℤ) (occ : Occ) (v : Vehicle)
    (h : GoodVeh g vm v) : GoodVeh g vm (brakeVehicle g vmS occ v) := by
  obtain ⟨h1, h2, h3, h4, h5⟩ := h
  unfold brakeVehicle
  dsimp only
  split
  · rename_i hd
    refine ⟨h1, h2, ?_, ?_, h5⟩
    · dsimp only
      omega
    · dsimp only
      simp only [max_def]
      split <;> omega
  · exact ⟨h1, h2, h3, h4, h5⟩

/-- Random slowdown preserves the ranges. -/
theorem randVehicle_good (g : Graph) (vm : ℤ) (sf : Bool) (v : Vehicle)
    (h : GoodVeh g vm v) : GoodVeh g vm (randVehicle sf v) := by
  obtain ⟨h1, h2, h3, h4, h5⟩ := h
  unfold randVehicle
  split
  · rename_i hc
    exact ⟨h1, h2, by dsimp only; omega, by dsimp only; omega, h5⟩
  · exact ⟨h1, h2, h3, h4, h5⟩

/-- Movement preserves the ranges (using `num_cells ≥ 1` on every edge). -/
theorem move_vehicle_good (g : Graph) (hnc : ∀ e, 1 ≤ g.numCells e)
    (t : ℕ) (v : Vehicle) (occ : Occ) (vm : ℤ)
    (h : GoodVeh g vm v) : GoodVeh g vm (move_vehicle g t v occ).1 := by
  obtain ⟨h1, h2, h3, h4, h5⟩ := h
  have hvm : 0 ≤ v.v_max := le_trans h3 h4
  unfold move_vehicle
  dsimp only
  split
  · -- stays on the edge
    rename_i hlt
    split
    · exact ⟨by dsimp only; omega, by dsimp only; omega,
        by dsimp only; omega, by dsimp only; omega, h5⟩
    · exact ⟨by dsimp only; omega, by dsimp only; exact hlt, h3, h4, h5⟩
  · rename_i hge
    split
    · -- dead end
      have := hnc v.edge
      exact ⟨by dsimp only; omega, by dsimp only; omega,
        by dsimp only; omega, by dsimp only; omega, h5⟩
    · -- overflow into a successor edge: clamped or not, occupied or not
      rename_i hnonempty
      have hne := hnc ((g.outEdges v.edge.2.1).getD
        (t % (g.outEdges v.edge.2.1).length) (0, 0, 0))
      have hoe := hnc v.edge
      split <;> split <;>
        exact ⟨by dsimp only; omega, by dsimp only; omega,
          by dsimp only; omega, by dsimp only; omega, h5⟩

/-- Members of `mapIdxFrom f i l` all come from applying `f` to a member. -/
theorem mem_mapIdxFrom (f : ℕ → Vehicle → Vehicle) :
    ∀ (i : ℕ) (l : List Vehicle) (v : Vehicle), v ∈ mapIdxFrom f i l →
      ∃ j a, a ∈ l ∧ v = f j a := by
  intro i l
  induction l generalizing i with
  | nil => intro v hv; simp [mapIdxFrom] at hv
  | cons a l ih =>
    intro v hv
    rcases List.mem_cons.mp hv with h | h
    · exact ⟨i, a, List.mem_cons_self a l, h⟩
    · obtain ⟨j, b, hb, rfl⟩ := ih (i + 1) v h
      exact ⟨j, b, List.mem_cons_of_mem a hb, rfl⟩

/-- Members of the moved list all come from `move_vehicle` on a member. -/
theorem mem_movePhase (g : Graph) (turn : ℕ → ℕ) :
    ∀ (l : List Vehicle) (i : ℕ) (occ : Occ) (v : Vehicle),
      v ∈ (movePhase g turn i l occ).1 →
      ∃ (t : ℕ) (a : Vehicle) (occ' : Occ), a ∈ l ∧ v = (move_vehicle g t a occ').1 := by
  intro l
  induction l with
  | nil => intro i occ v hv; simp [movePhase] at hv
  | cons a l ih =>
    intro i occ v hv
    rcases List.mem_cons.mp hv with h | h
    · exact ⟨turn i, a, occ, List.mem_cons_self a l, h⟩
    · obtain ⟨t, b, occ', hb, rfl⟩ := ih (i + 1) (move_vehicle g (turn i) a occ).2.1 v h
      exact ⟨t, b, occ', List.mem_cons_of_mem a hb, rfl⟩

/-- Claim C4, amended.  Provided callers keep their supplied arguments in
range — `add_vehicle` itself performs no validation, see the
counterexample — every vehicle's position is an integer in
`[0, num_cells)` of its current edge and its velocity an integer in
`[0, v_max]`: the property is preserved by every `add_vehicle` call whose
explicit position (if any) is in range and whose velocity is in
`[0, v_max]` (omitted arguments are drawn in range), and by every `step`,
on any graph whose edges all satisfy `num_cells ≥ 1` (which discretization
guarantees). -/
theorem vehicle_ranges_amended (g : Graph) (hnc : ∀ e, 1 ≤ g.numCells e) :
    (∀ (s : SimState) ea rei pa rp vel dst,
      (∀ v ∈ s.vehicles, GoodVeh g s.v_max v) →
      0 ≤ vel → vel ≤ s.v_max →
      (∀ p, pa = some p → 0 ≤ p ∧ p < (g.numCells (resolvedEdge g ea rei) : ℤ)) →
      ∀ v ∈ (add_vehicle g s ea rei pa rp vel dst).2.vehicles, GoodVeh g s.v_max v) ∧
    (∀ (s : SimState) (slow : ℕ → Bool) (turn : ℕ → ℕ),
      (∀ v ∈ s.vehicles, GoodVeh g s.v_max v) →
      ∀ v ∈ (step g s slow turn).vehicles, GoodVeh g s.v_max v) := by
  constructor
  · intro s ea rei pa rp vel dst hgood hv0 hvmax hpos v hv
    unfold add_vehicle at hv
    by_cases hocc : (s.edgeOcc (resolvedEdge g ea rei)
        (resolvedPos g (resolvedEdge g ea rei) pa rp)).isSome
    · rw [if_pos hocc] at hv
      exact hgood v hv
    · rw [if_neg hocc] at hv
      dsimp only at hv
      rcases List.mem_append.mp hv with h | h
      · exact hgood v h
      · have hveq : v = (⟨s.vehicleCounter, resolvedEdge g ea rei,
            resolvedPos g (resolvedEdge g ea rei) pa rp, vel, s.v_max, dst⟩ : Vehicle) := by
          simpa using h
        subst hveq
        refine ⟨?_, ?_, hv0, hvmax, rfl⟩
        · show (0 : ℤ) ≤ resolvedPos g (resolvedEdge g ea rei) pa rp
          unfold resolvedPos
          cases pa with
          | some p => exact (hpos p rfl).1
          | none => exact Int.ofNat_nonneg _
        · show resolvedPos g (resolvedEdge g ea rei) pa rp
            < (g.numCells (resolvedEdge g ea rei) : ℤ)
          unfold resolvedPos
          cases pa with
          | some p => exact (hpos p rfl).2
          | none =>
            have hmod : rp % g.numCells (resolvedEdge g ea rei)
                < g.numCells (resolvedEdge g ea rei) :=
              Nat.mod_lt rp (by have := hnc (resolvedEdge g ea rei); omega)
            dsimp only
            exact_mod_cast hmod
  · intro s slow turn hgood v hv
    unfold step at hv
    dsimp only at hv
    obtain ⟨t, a, occ', ha, rfl⟩ := mem_movePhase g turn _ 0 s.edgeOcc v hv
    obtain ⟨j, b, hb, rfl⟩ := mem_mapIdxFrom _ 0 _ a ha
    obtain ⟨c, hc, rfl⟩ := List.mem_map.mp hb
    obtain ⟨e0, he0, rfl⟩ := List.mem_map.mp hc
    exact move_vehicle_good g hnc t _ occ' s.v_max
      (randVehicle_good g s.v_max _ _
        (brakeVehicle_good g s.v_max s.v_max s.edgeOcc _
          (accelVehicle_good g s.v_max e0 (hgood e0 he0))))

/-- The state of the C4 witness: two in-range vehicles on a 10-cell edge. -/
def c4w_state : SimState :=
  { v_max := 5,
    vehicles := [⟨0, (0, 1, 0), 1, 3, 5, none⟩, ⟨1, (0, 1, 0), 2, 3, 5, none⟩],
    vehicleCounter := 2,
    edgeOcc := occSet (singleOcc (0, 1, 0) 1 0) (0, 1, 0) 2 1,
    timeStep := 0, avgVelocities := [] }

/-- Witness for the amended C4: the first vehicle of the state above is
still in range after one step. -/
theorem vehicle_ranges_amended_witness :
    GoodVeh ⟨[(0, 1, 0)], fun _ => 10, fun _ => []⟩ 5
      ((step ⟨[(0, 1, 0)], fun _ => 10, fun _ => []⟩ c4w_state
          (fun _ => false) (fun _ => 0)).vehicles.getD 0
        ⟨0, (0, 0, 0), 0, 0, 0, none⟩) :=
  (vehicle_ranges_amended ⟨[(0, 1, 0)], fun _ => 10, fun _ => []⟩
      (fun _ => by show (1 : ℕ) ≤ 10; decide)).2
    c4w_state (fun _ => false) (fun _ => 0)
    (by intro v hv; fin_cases hv <;> exact ⟨by decide, by decide, by decide, by decide, rfl⟩)
    ((step ⟨[(0, 1, 0)], fun _ => 10, fun _ => []⟩ c4w_state
        (fun _ => false) (fun _ => 0)).vehicles.getD 0
      ⟨0, (0, 0, 0), 0, 0, 0, none⟩)
    (by decide)

/-! ### C1: the occupancy invariant -/

/-- The occupancy consistency invariant: every vehicle's slot is recorded
under its id, ids are bounded by the counter, every occupancy record is
backed by a vehicle with exactly those fields, and ids are pairwise
distinct. -/
def Inv (s : SimState) : Prop :=
  (∀ v ∈ s.vehicles, s.edgeOcc v.edge v.position = some v.id ∧ v.id < s.vehicleCounter) ∧
  (∀ e p i, s.edgeOcc e p = some i →
    ∃ v, v ∈ s.vehicles ∧ v.id = i ∧ v.edge = e ∧ v.position = p) ∧
  (s.vehicles.map Vehicle.id).Nodup

theorem occSet_hit (o : Occ) (e : Edge) (p : ℤ) (i : ℕ) :
    occSet o e p i e p = some i := by
  unfold occSet
  rw [if_pos ⟨rfl, rfl⟩]

theorem occSet_miss (o : Occ) (e : Edge) (p : ℤ) (i : ℕ) (e' : Edge) (p' : ℤ)
    (h : ¬(e' = e ∧ p' = p)) : occSet o e p i e' p' = o e' p' := by
  unfold occSet
  rw [if_neg h]

/-- Lemma: `add_vehicle` preserves the occupancy invariant. -/
theorem add_vehicle_inv (g : Graph) (s : SimState) (ea : Option Edge) (rei : ℕ)
    (pa : Option ℤ) (rp : ℕ) (vel : ℤ) (dst : Option String)
    (h : Inv s) : Inv (add_vehicle g s ea rei pa rp vel dst).2 := by
  obtain ⟨h1, h2, h3⟩ := h
  unfold add_vehicle
  by_cases hocc : (s.edgeOcc (resolvedEdge g ea rei)
      (resolvedPos g (resolvedEdge g ea rei) pa rp)).isSome
  · rw [if_pos hocc]
    exact ⟨h1, h2, h3⟩
  · rw [if_neg hocc]
    unfold Inv
    dsimp only
    have hnone : s.edgeOcc (resolvedEdge g ea rei)
        (resolvedPos g (resolvedEdge g ea rei) pa rp) = none := by
      cases hx : s.edgeOcc (resolvedEdge g ea rei)
          (resolvedPos g (resolvedEdge g ea rei) pa rp) with
      | none => rfl
      | some j => rw [hx] at hocc; simp at hocc
    refine ⟨?_, ?_, ?_⟩
    · intro v hv
      rcases List.mem_append.mp hv with hvold | hvnew
      · obtain ⟨ho1, ho2⟩ := h1 v hvold
        refine ⟨?_, by omega⟩
        by_cases hsl : v.edge = resolvedEdge g ea rei ∧
            v.position = resolvedPos g (resolvedEdge g ea rei) pa rp
        · rw [hsl.1, hsl.2] at ho1
          rw [hnone] at ho1
          exact absurd ho1 (by simp)
        · rw [occSet_miss _ _ _ _ _ _ hsl]
          exact ho1
      · have hveq : v = (⟨s.vehicleCounter, resolvedEdge g ea rei,
            resolvedPos g (resolvedEdge g ea rei) pa rp, vel, s.v_max, dst⟩ : Vehicle) := by
          simpa using hvnew
        subst hveq
        exact ⟨occSet_hit _ _ _ _, by dsimp only; omega⟩
    · intro e p i hsome
      by_cases hsl : e = resolvedEdge g ea rei ∧
          p = resolvedPos g (resolvedEdge g ea rei) pa rp
      · obtain ⟨rfl, rfl⟩ := hsl
        rw [occSet_hit] at hsome
        refine ⟨⟨s.vehicleCounter, resolvedEdge g ea rei,
            resolvedPos g (resolvedEdge g ea rei) pa rp, vel, s.v_max, dst⟩,
          List.mem_append_right _ (List.mem_singleton.mpr rfl), ?_, rfl, rfl⟩
        simpa using hsome
      · rw [occSet_miss _ _ _ _ _ _ hsl] at hsome
        obtain ⟨v, hv, hvi, hve, hvp⟩ := h2 e p i hsome
        exact ⟨v, List.mem_append_left _ hv, hvi, hve, hvp⟩
    · rw [List.map_append]
      refine List.Nodup.append h3 (List.nodup_singleton _) ?_
      intro a ha hb
      simp only [List.map_cons, List.map_nil, List.mem_singleton] at hb
      subst hb
      obtain ⟨v, hv, hvid⟩ := List.mem_map.mp ha
      have := (h1 v hv).2
      omega

/-- The per-vehicle placement loop preserves the invariant. -/
theorem place_vehicle_inv (g : Graph) (dz : String) (oe : List Edge)
    (rng : ℕ → ℕ) :
    ∀ (fuel k : ℕ) (s : SimState), Inv s →
      Inv (place_vehicle g dz oe rng fuel k s).state := by
  intro fuel
  induction fuel with
  | zero => intro k s h; exact h
  | succ fuel ih =>
    intro k s h
    unfold place_vehicle
    dsimp only
    cases h1 : (add_vehicle g s (some (oe.getD (rng k % oe.length) (0, 0, 0))) 0
        (some 0) 0 ((rng (k + 1) % (s.v_max.toNat + 1) : ℕ) : ℤ) (some dz)).1 with
    | some i => exact add_vehicle_inv g s _ _ _ _ _ _ h
    | none =>
      have hs1 : Inv (add_vehicle g s (some (oe.getD (rng k % oe.length) (0, 0, 0))) 0
          (some 0) 0 ((rng (k + 1) % (s.v_max.toNat + 1) : ℕ) : ℤ) (some dz)).2 :=
        add_vehicle_inv g s _ _ _ _ _ _ h
      cases h2 : (add_vehicle g
          (add_vehicle g s (some (oe.getD (rng k % oe.length) (0, 0, 0))) 0
            (some 0) 0 ((rng (k + 1) % (s.v_max.toNat + 1) : ℕ) : ℤ) (some dz)).2
          (some (oe.getD (rng k % oe.length) (0, 0, 0))) 0 none (rng (k + 2))
          ((rng (k + 1) % (s.v_max.toNat + 1) : ℕ) : ℤ) (some dz)).1 with
      | some i => exact add_vehicle_inv g _ _ _ _ _ _ _ hs1
      | none => exact ih (k + 3) _ (add_vehicle_inv g _ _ _ _ _ _ _ hs1)

/-- The per-pair vehicle loop preserves the invariant. -/
theorem spawnVehicles_inv (g : Graph) (dz : String) (oe : List Edge)
    (rng : ℕ → ℕ) (ma : ℕ) :
    ∀ (n k : ℕ) (s : SimState), Inv s →
      Inv (spawnVehicles g dz oe rng ma n k s).2.1 := by
  intro n
  induction n with
  | zero => intro k s h; exact h
  | succ n ih =>
    intro k s h
    exact ih _ _ (place_vehicle_inv g dz oe rng ma k s h)

/-- The destination loop preserves the invariant. -/
theorem spawnDests_inv (g : Graph) (oz : String) (oe : List Edge)
    (rng : ℕ → ℕ) (ma : ℕ) (scale : ℚ) :
    ∀ (dests : List (String × ℚ)) (k : ℕ) (s : SimState), Inv s →
      Inv (spawnDests g oz oe rng ma scale dests k s).2.1 := by
  intro dests
  induction dests with
  | nil => intro k s h; exact h
  | cons d rest ih =>
    intro k s h
    unfold spawnDests
    dsimp only
    split
    · exact ih k s h
    · split
      · exact ih k s h
      · split
        · exact ih k s h
        · exact ih _ _ (spawnVehicles_inv g d.1 oe rng ma _ k s h)

/-- The origin loop preserves the invariant. -/
theorem spawnOrigins_inv (g : Graph) (zwe : List (String × List Edge))
    (rng : ℕ → ℕ) (ma : ℕ) (scale : ℚ) :
    ∀ (od : List (String × List (String × ℚ))) (k : ℕ) (s : SimState), Inv s →
      Inv (spawnOrigins g zwe rng ma scale od k s).2 := by
  intro od
  induction od with
  | nil => intro k s h; exact h
  | cons o rest ih =>
    intro k s h
    unfold spawnOrigins
    dsimp only
    cases hz : (zwe.find? (fun z => z.1 = o.1)).map (fun z => z.2) with
    | none => exact ih k s h
    | some oe => exact ih _ _ (spawnDests_inv g o.1 oe rng ma scale o.2 k s h)

/-- Lemma: `spawn_from_od_matrix` preserves the invariant. -/
theorem spawn_from_od_matrix_inv (g : Graph) (s : SimState)
    (zones : List (String × List Node)) (od : List (String × List (String × ℚ)))
    (scale : ℚ) (ma : ℕ) (rng : ℕ → ℕ) (r : ℕ × SimState)
    (hr : spawn_from_od_matrix g s zones od scale ma rng = some r)
    (h : Inv s) : Inv r.2 := by
  unfold spawn_from_od_matrix at hr
  split at hr
  · simp at hr
  · simp only [Option.some.injEq] at hr
    subst hr
    exact spawnOrigins_inv g (zonesWithEdges g zones) rng ma scale od 0 s h

/-- States reachable from a fresh simulation using only `add_vehicle` and
`spawn_from_od_matrix` (no `step`). -/
inductive ReachNoStep (g : Graph) (vm : ℤ) : SimState → Prop
  | init : ReachNoStep g vm (initState vm)
  | add (s : SimState) (ea : Option Edge) (rei : ℕ) (pa : Option ℤ) (rp : ℕ)
      (vel : ℤ) (dst : Option String) : ReachNoStep g vm s →
      ReachNoStep g vm (add_vehicle g s ea rei pa rp vel dst).2
  | spawn (s : SimState) (zones : List (String × List Node))
      (od : List (String × List (String × ℚ))) (scale : ℚ) (ma : ℕ)
      (rng : ℕ → ℕ) (r : ℕ × SimState) : ReachNoStep g vm s →
      spawn_from_od_matrix g s zones od scale ma rng = some r →
      ReachNoStep g vm r.2

/-- The graph of the C1 counterexample: edge `(0,1,0)` (2 cells) feeds
node 1, whose out-edges are the long empty edge `(1,3,0)` (10 cells) and
the dead-ending edge `(1,2,0)` (3 cells; node 2 has no out-edges). -/
def clobber_graph : Graph :=
  ⟨[(0, 1, 0), (1, 3, 0), (1, 2, 0)],
   fun e => if e = (0, 1, 0) then 2 else if e = (1, 3, 0) then 10 else 3,
   fun n => if n = 1 then [(1, 3, 0), (1, 2, 0)] else []⟩

/-- The C1 counterexample state: vehicle 0 at cell 0 of `(0,1,0)` with
velocity 4, vehicle 1 at cell 1 of `(1,2,0)` with velocity 4, both placed
by `add_vehicle` on a fresh simulation with `v_max = 5`. -/
def clobber_state : SimState :=
  (add_vehicle clobber_graph
    (add_vehicle clobber_graph (initState 5) (some (0, 1, 0)) 0 (some 0) 0 4 none).2
    (some (1, 2, 0)) 0 (some 1) 0 4 none).2

/-- Claim C1, counterexample.  One `step` from the reachable `clobber_state`
(no slowdown draws; vehicle 0 turns onto `(1,2,0)`) makes vehicle 0 cross
onto cell 2 of the dead-ending edge, after which vehicle 1 overflows the
dead end and is written to the same cell 2 without an occupancy check:
the resulting reachable state has two distinct vehicles on the same
(edge, cell), and the occupancy index maps that slot to vehicle 1 only,
contradicting both halves of the claimed invariant. -/
theorem occupancy_invariant_counterexample :
    (let s3 := step clobber_graph clobber_state (fun _ => false) (fun _ => 1)
     let d : Vehicle := ⟨0, (0, 0, 0), 0, 0, 0, none⟩
     s3.vehicles.length = 2 ∧
     (s3.vehicles.getD 0 d).id = 0 ∧ (s3.vehicles.getD 1 d).id = 1 ∧
     (s3.vehicles.getD 0 d).edge = (1, 2, 0) ∧ (s3.vehicles.getD 0 d).position = 2 ∧
     (s3.vehicles.getD 1 d).edge = (1, 2, 0) ∧ (s3.vehicles.getD 1 d).position = 2 ∧
     s3.edgeOcc (1, 2, 0) 2 = some 1) := by
  decide

/-- Strengthen a pairwise relation using membership. -/
theorem pairwise_imp_mem {α : Type} {R S : α → α → Prop} :
    ∀ {l : List α}, (∀ a b, a ∈ l → b ∈ l → R a b → S a b) →
      l.Pairwise R → l.Pairwise S := by
  intro l
  induction l with
  | nil => intro _ _; exact List.Pairwise.nil
  | cons a l ih =>
    intro himp hp
    rcases List.pairwise_cons.mp hp with ⟨hhead, htail⟩
    refine List.pairwise_cons.mpr ⟨?_, ?_⟩
    · intro b hb
      exact himp a b (List.mem_cons_self a l) (List.mem_cons_of_mem a hb) (hhead b hb)
    · exact ih (fun x y hx hy =>
        himp x y (List.mem_cons_of_mem a hx) (List.mem_cons_of_mem a hy)) htail

/-- Claim C1, amended.  In every state reachable via `add_vehicle` and
`spawn_from_od_matrix` from a fresh simulation — but not through `step`,
whose dead-end and stay-on-edge writes skip the occupancy check, see the
counterexample — no two vehicles occupy the same (edge, cell), every
vehicle's slot is recorded in the occupancy index under its id, and every
occupancy record is backed by the vehicle whose fields name that slot. -/
theorem occupancy_invariant_amended (g : Graph) (vm : ℤ) (s : SimState)
    (h : ReachNoStep g vm s) :
    s.vehicles.Pairwise (fun v w => (v.edge, v.position) ≠ (w.edge, w.position)) ∧
    (∀ v ∈ s.vehicles, s.edgeOcc v.edge v.position = some v.id) ∧
    (∀ e p i, s.edgeOcc e p = some i →
      ∃ v, v ∈ s.vehicles ∧ v.id = i ∧ v.edge = e ∧ v.position = p) := by
  have hinv : Inv s := by
    induction h with
    | init =>
      refine ⟨?_, ?_, ?_⟩
      · intro v hv
        simp [initState] at hv
      · intro e p i h0
        simp [initState] at h0
      · simp [initState]
    | add s ea rei pa rp vel dst _ ih => exact add_vehicle_inv g s ea rei pa rp vel dst ih
    | spawn s zones od scale ma rng r _ hr ih =>
      exact spawn_from_od_matrix_inv g s zones od scale ma rng r hr ih
  obtain ⟨h1, h2, h3⟩ := hinv
  refine ⟨?_, fun v hv => (h1 v hv).1, h2⟩
  have hids : s.vehicles.Pairwise (fun v w => v.id ≠ w.id) :=
    (List.pairwise_map.mp h3)
  refine pairwise_imp_mem ?_ hids
  intro v w hv hw hne heq
  have he : v.edge = w.edge := congrArg Prod.fst heq
  have hp : v.position = w.position := congrArg Prod.snd heq
  have hvocc := (h1 v hv).1
  have hwocc := (h1 w hw).1
  rw [he, hp] at hvocc
  rw [hvocc] at hwocc
  have hid : v.id = w.id := by simpa using hwocc
  exact hne hid

/-- Witness for the amended C1 at the reachable state `clobber_state`
(before any step): vehicle 0's slot is correctly indexed. -/
theorem occupancy_invariant_amended_witness :
    clobber_state.edgeOcc (⟨0, (0, 1, 0), 0, 4, 5, none⟩ : Vehicle).edge
        (⟨0, (0, 1, 0), 0, 4, 5, none⟩ : Vehicle).position
      = some (⟨0, (0, 1, 0), 0, 4, 5, none⟩ : Vehicle).id :=
  (occupancy_invariant_amended clobber_graph 5 clobber_state
      (ReachNoStep.add _ _ _ _ _ _ _
        (ReachNoStep.add _ _ _ _ _ _ _ ReachNoStep.init))).2.1
    ⟨0, (0, 1, 0), 0, 4, 5, none⟩ (by decide)

/-! ### C3: the retry policy of `spawn_from_od_matrix` -/

/-- Claim C3, counterexample.  The claim says a vehicle's retries never leave
the edge of its first try and that at most `max_attempts` placement tries
happen in total.  But `random.choice(origin_edges)` sits inside the
`while` loop: here, with `max_attempts = 2`, origin edges `(0,1,0)`
(1 cell, fully occupied) and `(0,2,0)`, the first iteration tries cell 0
of `(0,1,0)` and retries a random cell of it (both fail), then the second
iteration draws the different edge `(0,2,0)` and succeeds there — three
placement tries in total, and the last try's edge differs from the first
try's edge. -/
theorem spawn_retry_counterexample :
    (let g : Graph := ⟨[(0, 1, 0), (0, 2, 0)],
        fun e => if e = (0, 1, 0) then 1 else 3,
        fun n => if n = 0 then [(0, 1, 0), (0, 2, 0)] else []⟩
     let s1 := (add_vehicle g (initState 5) (some (0, 1, 0)) 0 (some 0) 0 0 none).2
     let r := place_vehicle g "Z" [(0, 1, 0), (0, 2, 0)]
        (fun n => if n = 3 then 1 else 0) 2 0 s1
     let d : PlaceCall := ⟨(9, 9, 9), none, 0⟩
     r.placed = some 1 ∧
     r.trace = [[⟨(0, 1, 0), some 0, 0⟩, ⟨(0, 1, 0), none, 0⟩],
                [⟨(0, 2, 0), some 0, 0⟩]] ∧
     r.trace.flatten.length = 3 ∧
     ¬ (r.trace.flatten.length ≤ 2) ∧
     (r.trace.flatten.getD 2 d).edge ≠ (r.trace.flatten.getD 0 d).edge) := by
  decide

/-- Claim C3, amended.  The per-vehicle placement loop of
`spawn_from_od_matrix` runs at most `max_attempts` iterations.  Each
iteration draws a fresh uniformly random edge from the origin's outgoing
edges and issues on it either a single `add_vehicle` call at cell 0, or —
on occupancy failure — that call followed by one retry with a uniformly
random cell on that same iteration's edge (so up to `2 * max_attempts`
placement calls in total, and a later iteration's edge may differ from the
first iteration's).  If every try fails the vehicle is silently dropped:
no identifier is returned and the simulation state is exactly as before. -/
theorem place_vehicle_policy (g : Graph) (dz : String) (oe : List Edge)
    (rng : ℕ → ℕ) :
    ∀ (fuel k : ℕ) (s : SimState),
      (place_vehicle g dz oe rng fuel k s).trace.length ≤ fuel ∧
      (∀ it ∈ (place_vehicle g dz oe rng fuel k s).trace,
        ∃ e vel, it = [⟨e, some 0, vel⟩] ∨
          it = [⟨e, some 0, vel⟩, ⟨e, none, vel⟩]) ∧
      ((place_vehicle g dz oe rng fuel k s).placed = none →
        (place_vehicle g dz oe rng fuel k s).state = s) := by
  intro fuel
  induction fuel with
  | zero =>
    intro k s
    exact ⟨Nat.le_refl 0, by intro it hit; simp [place_vehicle] at hit, fun _ => rfl⟩
  | succ fuel ih =>
    intro k s
    unfold place_vehicle
    dsimp only
    cases h1 : (add_vehicle g s (some (oe.getD (rng k % oe.length) (0, 0, 0))) 0
        (some 0) 0 ((rng (k + 1) % (s.v_max.toNat + 1) : ℕ) : ℤ) (some dz)).1 with
    | some i =>
      dsimp only
      refine ⟨?_, ?_, ?_⟩
      · simp only [List.length_cons, List.length_nil]
        omega
      · intro it hit
        simp only [List.mem_singleton] at hit
        exact ⟨_, _, Or.inl hit⟩
      · intro h
        simp at h
    | none =>
      have hs1 : (add_vehicle g s (some (oe.getD (rng k % oe.length) (0, 0, 0))) 0
          (some 0) 0 ((rng (k + 1) % (s.v_max.toNat + 1) : ℕ) : ℤ) (some dz)).2 = s :=
        add_vehicle_failure_id g s _ _ _ _ _ _ h1
      cases h2 : (add_vehicle g
          (add_vehicle g s (some (oe.getD (rng k % oe.length) (0, 0, 0))) 0
            (some 0) 0 ((rng (k + 1) % (s.v_max.toNat + 1) : ℕ) : ℤ) (some dz)).2
          (some (oe.getD (rng k % oe.length) (0, 0, 0))) 0 none (rng (k + 2))
          ((rng (k + 1) % (s.v_max.toNat + 1) : ℕ) : ℤ) (some dz)).1 with
      | some i =>
        dsimp only
        refine ⟨?_, ?_, ?_⟩
        · simp only [List.length_cons, List.length_nil]
          omega
        · intro it hit
          simp only [List.mem_singleton] at hit
          exact ⟨_, _, Or.inr hit⟩
        · intro h
          simp at h
      | none =>
        have hs2 : (add_vehicle g
            (add_vehicle g s (some (oe.getD (rng k % oe.length) (0, 0, 0))) 0
              (some 0) 0 ((rng (k + 1) % (s.v_max.toNat + 1) : ℕ) : ℤ) (some dz)).2
            (some (oe.getD (rng k % oe.length) (0, 0, 0))) 0 none (rng (k + 2))
            ((rng (k + 1) % (s.v_max.toNat + 1) : ℕ) : ℤ) (some dz)).2
            = (add_vehicle g s (some (oe.getD (rng k % oe.length) (0, 0, 0))) 0
              (some 0) 0 ((rng (k + 1) % (s.v_max.toNat + 1) : ℕ) : ℤ) (some dz)).2 :=
          add_vehicle_failure_id g _ _ _ _ _ _ _ h2
        obtain ⟨ihlen, ihshape, ihatomic⟩ := ih (k + 3)
          ((add_vehicle g
            (add_vehicle g s (some (oe.getD (rng k % oe.length) (0, 0, 0))) 0
              (some 0) 0 ((rng (k + 1) % (s.v_max.toNat + 1) : ℕ) : ℤ) (some dz)).2
            (some (oe.getD (rng k % oe.length) (0, 0, 0))) 0 none (rng (k + 2))
            ((rng (k + 1) % (s.v_max.toNat + 1) : ℕ) : ℤ) (some dz)).2)
        dsimp only
        refine ⟨?_, ?_, ?_⟩
        · simp only [List.length_cons]
          omega
        · intro it hit
          rcases List.mem_cons.mp hit with h | h
          · exact ⟨_, _, Or.inr h⟩
          · exact ihshape it h
        · intro h
          rw [ihatomic h, hs2, hs1]

/-- The graph of the C3 witness: a single 1-cell origin edge. -/
def c3w_graph : Graph :=
  ⟨[(0, 1, 0)], fun _ => 1, fun n => if n = 0 then [(0, 1, 0)] else []⟩

/-- The C3 witness state: the single cell of the origin edge is occupied,
so every placement try must fail. -/
def c3w_state : SimState :=
  (add_vehicle c3w_graph (initState 5) (some (0, 1, 0)) 0 (some 0) 0 0 none).2

/-- Witness for the amended C3: with the only edge full, a budget of 2
attempts places nothing and leaves the state exactly unchanged. -/
theorem place_vehicle_policy_witness :
    (place_vehicle c3w_graph "Z" [(0, 1, 0)] (fun _ => 0) 2 0 c3w_state).state
      = c3w_state :=
  (place_vehicle_policy c3w_graph "Z" [(0, 1, 0)] (fun _ => 0) 2 0 c3w_state).2.2
    (by decide)

end TrafficSim
